import Mathlib

/-!
Verification development for the CUPyDO coupling core (cupydo/FSICoupler.py).

The Python source is shallowly embedded: floating-point numbers are idealized
as exact rationals, NumPy/ccupydo interface fields become finite tuples of
rational-valued columns, and methods become pure Lean functions over the state
they read and write.  Components that live outside FSICoupler.py (the ccupydo
C++ layer: FlexInterfaceData arithmetic, InterfaceMatrix, LinearSolver) are
modelled from the specification, as marked in their doc comments.
-/

namespace CUPyDO

/-- Distributed interface field with three per-node dimension columns,
mirroring FlexInterfaceData(n, 3, mpiComm) from the code with exact rational
values in place of floats. -/
structure FlexData (n : ℕ) where
  x : Fin n → ℚ
  y : Fin n → ℚ
  z : Fin n → ℚ

/-- Modelled from the spec: FlexInterfaceData subtraction (ccupydo, not in
src/) is defined per-dimension-column (spec 4.1, arithmetic is per column). -/
def FlexData.sub {n : ℕ} (a b : FlexData n) : FlexData n :=
  ⟨fun i => a.x i - b.x i, fun i => a.y i - b.y i, fun i => a.z i - b.z i⟩

/-- Modelled from the spec: FlexInterfaceData addition (ccupydo, not in src/)
is defined per-dimension-column (spec 4.1). -/
def FlexData.add {n : ℕ} (a b : FlexData n) : FlexData n :=
  ⟨fun i => a.x i + b.x i, fun i => a.y i + b.y i, fun i => a.z i + b.z i⟩

/-- Modelled from the spec: scalar multiplication of a FlexInterfaceData
(ccupydo, not in src/) acts on every dimension column (spec 4.1). -/
def FlexData.smul {n : ℕ} (c : ℚ) (a : FlexData n) : FlexData n :=
  ⟨fun i => c * a.x i, fun i => c * a.y i, fun i => c * a.z i⟩

/-- Modelled from the spec: FlexInterfaceData.dot (ccupydo, not in src/)
returns one dot product per dimension column (spec 4.1). -/
def FlexData.dotCols {n : ℕ} (a b : FlexData n) : ℚ × ℚ × ℚ :=
  (∑ i, a.x i * b.x i, ∑ i, a.y i * b.y i, ∑ i, a.z i * b.z i)

/-- Modelled from the spec: FlexInterfaceData.norm (ccupydo, not in src/)
returns the Euclidean norm of each dimension column; setOmega only ever uses
the squares of those norms, and norm(col)^2 is exactly the column sum of
squares in exact arithmetic, so the squared norms are represented directly. -/
def FlexData.normSqCols {n : ℕ} (a : FlexData n) : ℚ × ℚ × ℚ :=
  (∑ i, a.x i * a.x i, ∑ i, a.y i * a.y i, ∑ i, a.z i * a.z i)

/-- Scalar prodScalRes of AlgorithmBGSAitkenRelax.setOmega: the three
per-column dot products of (r_k − r_km1) with r_km1, summed. -/
def aitkenProdScalRes {n : ℕ} (r rkM1 : FlexData n) : ℚ :=
  let p := (r.sub rkM1).dotCols rkM1
  p.1 + p.2.1 + p.2.2

/-- Scalar deltaResNormSquare of AlgorithmBGSAitkenRelax.setOmega: the three
squared column norms of (r_k − r_km1), summed. -/
def aitkenDeltaResNormSq {n : ℕ} (r rkM1 : FlexData n) : ℚ :=
  let q := (r.sub rkM1).normSqCols
  q.1 + q.2.1 + q.2.2

/-- AlgorithmBGSAitkenRelax.setOmega (FSICoupler.py lines 1916-1949): for
FSIIter different from 0 the Aitken update multiplies omega by
−prodScalRes/deltaResNormSquare when the denominator is nonzero and sets
omega to omegaMin otherwise; for FSIIter = 0 it resets omega from omegaMax
via the aitkenCrit tie-break; in every case the result is then passed through
min(·, 1.0) followed by max(·, omegaMin). -/
def aitkenSetOmega {n : ℕ} (FSIIter : ℕ) (aitkenCrit : String)
    (omegaMax omegaMin omega : ℚ) (r rkM1 : FlexData n) : ℚ :=
  let omega1 :=
    if FSIIter ≠ 0 then
      if aitkenDeltaResNormSq r rkM1 ≠ 0 then
        omega * (-(aitkenProdScalRes r rkM1) / aitkenDeltaResNormSq r rkM1)
      else
        omegaMin
    else
      if aitkenCrit = "max" then max omegaMax omega else min omegaMax omega
  max (min omega1 1) omegaMin

/-- Concrete one-node residual used to exercise the Aitken update. -/
def aitkenSampleR : FlexData 1 := ⟨fun _ => 3, fun _ => 0, fun _ => 0⟩

/-- Concrete one-node previous residual used to exercise the Aitken update. -/
def aitkenSampleRkM1 : FlexData 1 := ⟨fun _ => 1, fun _ => 0, fun _ => 0⟩

/-- C1: in AlgorithmBGSAitkenRelax.setOmega, for every sub-iteration after the
first (FSIIter different from 0), with current residual r and previous
residual rkM1: if the squared norm of the residual delta is nonzero, the new
omega is the old omega times −(delta·rkM1)/normSq(delta), clamped to the
interval from omegaMin to 1.0 (min with 1 then max with omegaMin); if the
squared norm is zero, the resulting omega is exactly omegaMin. -/
theorem aitken_setOmega_formula {n : ℕ} (FSIIter : ℕ) (aitkenCrit : String)
    (omegaMax omegaMin omega : ℚ) (r rkM1 : FlexData n) (h : FSIIter ≠ 0) :
    (aitkenDeltaResNormSq r rkM1 ≠ 0 →
      aitkenSetOmega FSIIter aitkenCrit omegaMax omegaMin omega r rkM1 =
        max (min (omega * (-(aitkenProdScalRes r rkM1) / aitkenDeltaResNormSq r rkM1)) 1)
          omegaMin) ∧
    (aitkenDeltaResNormSq r rkM1 = 0 →
      aitkenSetOmega FSIIter aitkenCrit omegaMax omegaMin omega r rkM1 = omegaMin) := by
  constructor
  · intro hnz
    simp only [aitkenSetOmega, if_pos h, if_pos hnz]
  · intro hz
    simp only [aitkenSetOmega, if_pos h, hz, ne_eq, not_true_eq_false, if_false, if_neg]
    rcases le_total omegaMin 1 with hle | hle
    · rw [min_eq_left hle, max_comm, max_eq_left le_rfl]
    · rw [min_eq_right hle, max_eq_right hle]

/-- Witness for C1 at a concrete input: one interface node, r = (3,0,0),
rkM1 = (1,0,0), so delta = 2, prodScalRes = 2, deltaResNormSquare = 4. -/
theorem aitken_setOmega_formula_witness :
    aitkenDeltaResNormSq aitkenSampleR aitkenSampleRkM1 ≠ 0 ∧
    aitkenSetOmega 1 "max" 1 (1/100) 1 aitkenSampleR aitkenSampleRkM1 =
      max (min ((1 : ℚ) *
        (-(aitkenProdScalRes aitkenSampleR aitkenSampleRkM1) /
          aitkenDeltaResNormSq aitkenSampleR aitkenSampleRkM1)) 1) (1/100) := by
  have hnz : aitkenDeltaResNormSq aitkenSampleR aitkenSampleRkM1 ≠ 0 := by
    norm_num [aitkenDeltaResNormSq, FlexData.normSqCols, FlexData.sub,
      aitkenSampleR, aitkenSampleRkM1, Fin.sum_univ_one]
  exact ⟨hnz, (aitken_setOmega_formula 1 "max" 1 (1/100) 1 aitkenSampleR aitkenSampleRkM1
    (by decide)).1 hnz⟩

/-- While loop of AlgorithmBGSStaticRelax.fsiCoupling (lines 1798-1868) in the
regime timeIter above timeIterTreshold, where the iteration cap nbFSIIter is
nbFSIIterMax.  The external convergence criterion is deterministic in the
error values, which in turn are a function of how many loop bodies have
updated them, so its answers are abstracted as a Boolean sequence: verified i
is the value criterion.isVerified returns once i loop bodies have executed
(i = 0 queries the initial sentinel errors 1e12 / 1e6).  The loop continues
while FSIIter is below the cap and the criterion is not verified; structural
fuel stands in for the while loop, and fuel = cap is always sufficient
because every body increments FSIIter. -/
def bgsLoopAux (cap : ℕ) (verified : ℕ → Bool) : ℕ → ℕ → ℕ
  | 0, i => i
  | fuel + 1, i =>
    if i < cap ∧ verified i = false then bgsLoopAux cap verified fuel (i + 1) else i

/-- Final value of FSIIter after the BGS sub-iteration loop: the number of
times the loop body executed. -/
def bgsFSIIterCount (cap : ℕ) (verified : ℕ → Bool) : ℕ :=
  bgsLoopAux cap verified cap 0

/-- Final value of FSIConv after the BGS sub-iteration loop: initialized to
False before the loop, and each body sets it to the criterion answer after
the residual update of that body. -/
def bgsFSIConv (cap : ℕ) (verified : ℕ → Bool) : Bool :=
  if bgsFSIIterCount cap verified = 0 then false else verified (bgsFSIIterCount cap verified)

/-- Helper: if the criterion first answers true after exactly k bodies, the
loop counter ends at min k cap. -/
theorem bgsLoopAux_first_true (cap k : ℕ) (verified : ℕ → Bool)
    (hfalse : ∀ i, i < k → verified i = false) (hk : verified k = true) :
    ∀ fuel i, i + fuel = cap → i ≤ min k cap →
      bgsLoopAux cap verified fuel i = min k cap := by
  intro fuel
  induction fuel with
  | zero =>
    intro i hcap hle
    have : i = cap := by omega
    have : i = min k cap := by omega
    simpa [bgsLoopAux] using this
  | succ m ih =>
    intro i hcap hle
    rcases lt_or_eq_of_le hle with hlt | heq
    · have hik : i < k := lt_of_lt_of_le hlt (min_le_left k cap)
      have hicap : i < cap := lt_of_lt_of_le hlt (min_le_right k cap)
      rw [bgsLoopAux, if_pos ⟨hicap, hfalse i hik⟩]
      exact ih (i + 1) (by omega) (by omega)
    · have hicap : i < cap := by omega
      have hkmin : min k cap = k := by omega
      have hik : i = k := by omega
      rw [bgsLoopAux, if_neg]
      · omega
      · rw [hik, hk]
        simp

/-- C5: in the BGS sub-iteration loop with timeIter above the threshold, if
the convergence criterion first reports verified after exactly k
sub-iterations (k at least 1, since the criterion is first consulted against
the sentinel initial errors), the loop body executes exactly min k cap times
where cap is nbFSIIterMax, and on exit FSIConv is true exactly when k is at
most the cap. -/
theorem bgs_loop_iterations_and_conv (cap k : ℕ) (verified : ℕ → Bool)
    (hk0 : 0 < k) (hfalse : ∀ i, i < k → verified i = false)
    (hk : verified k = true) :
    bgsFSIIterCount cap verified = min k cap ∧
      (bgsFSIConv cap verified = true ↔ k ≤ cap) := by
  have hcount : bgsFSIIterCount cap verified = min k cap :=
    bgsLoopAux_first_true cap k verified hfalse hk cap 0 (by omega) (by omega)
  refine ⟨hcount, ?_⟩
  rw [bgsFSIConv, hcount]
  rcases le_or_lt k cap with hle | hlt
  · have hmin : min k cap = k := min_eq_left hle
    rw [hmin, if_neg (by omega), hk]
    simp [hle]
  · have hmin : min k cap = cap := min_eq_right (le_of_lt hlt)
    rw [hmin]
    rcases Nat.eq_zero_or_pos cap with hc0 | hcpos
    · rw [if_pos hc0]
      simp
      omega
    · rw [if_neg (by omega), hfalse cap hlt]
      simp
      omega

/-- Witness for C5 at a concrete input: cap = 3 and a criterion first
verified after k = 2 sub-iterations. -/
theorem bgs_loop_iterations_and_conv_witness :
    bgsFSIIterCount 3 (fun i => decide (2 ≤ i)) = min 2 3 ∧
      (bgsFSIConv 3 (fun i => decide (2 ≤ i)) = true ↔ 2 ≤ 3) :=
  bgs_loop_iterations_and_conv 3 2 (fun i => decide (2 ≤ i)) (by decide)
    (by decide) (by decide)

/-- AlgorithmBGSStaticRelax.relaxSolidPosition (lines 1882-1891): after
setOmega has fixed the relaxation parameter, the solid interface displacement
is updated by adding omega times the mechanical residual. -/
def relaxSolidPosition {n : ℕ} (omega : ℚ) (solidInterfaceDisplacement
    solidInterfaceResidual : FlexData n) : FlexData n :=
  solidInterfaceDisplacement.add (FlexData.smul omega solidInterfaceResidual)

/-- AlgorithmBGSStaticRelax.relaxCHT (lines 1893-1901): for hFFB or TFFB the
solid interface heat flux is incremented by the heat-flux residual, for hFTB
or FFTB the solid interface temperature is incremented by the temperature
residual.  The relaxation parameter omega is in scope in the source method
(self.omega) but never read, so it is threaded through here untouched to make
that independence statable. -/
def relaxCHT {n : ℕ} (chtTransferMethod : String) (omega : ℚ)
    (solidInterfaceHeatFlux solidInterfaceTemperature solidHeatFluxResidual
      solidTemperatureResidual : FlexData n) : FlexData n × FlexData n :=
  if chtTransferMethod = "hFFB" ∨ chtTransferMethod = "TFFB" then
    (solidInterfaceHeatFlux.add solidHeatFluxResidual, solidInterfaceTemperature)
  else if chtTransferMethod = "hFTB" ∨ chtTransferMethod = "FFTB" then
    (solidInterfaceHeatFlux, solidInterfaceTemperature.add solidTemperatureResidual)
  else
    (solidInterfaceHeatFlux, solidInterfaceTemperature)

/-- C10: AlgorithmBGSStaticRelax.relaxCHT adds the full thermal residual
(heat flux for hFFB/TFFB, temperature for hFTB/FFTB) to the corresponding
solid interface field with coefficient exactly 1 and independently of the
relaxation parameter omega, whereas relaxSolidPosition updates the mechanical
field with omega times the residual. -/
theorem relaxCHT_full_residual {n : ℕ} (m : String) (omega omega2 : ℚ)
    (hf t hfRes tRes disp res : FlexData n) :
    (m = "hFFB" ∨ m = "TFFB" →
      relaxCHT m omega hf t hfRes tRes = (hf.add hfRes, t)) ∧
    (m = "hFTB" ∨ m = "FFTB" →
      relaxCHT m omega hf t hfRes tRes = (hf, t.add tRes)) ∧
    relaxCHT m omega hf t hfRes tRes = relaxCHT m omega2 hf t hfRes tRes ∧
    relaxSolidPosition omega disp res = disp.add (FlexData.smul omega res) := by
  refine ⟨?_, ?_, ?_, rfl⟩
  · intro hm
    rw [relaxCHT, if_pos hm]
  · intro hm
    have hm1 : ¬(m = "hFFB" ∨ m = "TFFB") := by
      rcases hm with h | h <;> rw [h] <;> decide
    rw [relaxCHT, if_neg hm1, if_pos hm]
  · rw [relaxCHT, relaxCHT]

/-- Witness for C10 at a concrete input: method hFFB with two distinct omega
values on one-node fields. -/
theorem relaxCHT_full_residual_witness :
    relaxCHT "hFFB" (1/2) aitkenSampleR aitkenSampleRkM1 aitkenSampleRkM1
        aitkenSampleR =
      (aitkenSampleR.add aitkenSampleRkM1, aitkenSampleRkM1) :=
  (relaxCHT_full_residual "hFFB" (1/2) (1/3) aitkenSampleR aitkenSampleRkM1
    aitkenSampleRkM1 aitkenSampleR aitkenSampleR aitkenSampleRkM1).1 (Or.inl rfl)

/-- Cross-time-step state of AlgorithmIQN_ILS touched by the end-of-coupling
history update: the global V and W lists (one entry per retained time step,
entries abstracted over a type a) and the two Boolean flags. -/
structure IQNHistState (a : Type) where
  V : List a
  W : List a
  maxNbOfItReached : Bool
  convergenceReachedInOneIt : Bool

/-- Per-call inputs of the end-of-coupling history update of
AlgorithmIQN_ILS.fsiCoupling: the iteration cap nbFSIIter used for this time
step, the final FSIIter and FSIConv of the sub-iteration loop, and the blocks
Vk_mat[:,0:nIt].T and Wk_mat[:,0:nIt].T that would be inserted. -/
structure IQNStepInput (a : Type) where
  nbFSIIter : ℕ
  FSIIter : ℕ
  FSIConv : Bool
  vEntry : a
  wEntry : a

/-- History update at the end of AlgorithmIQN_ILS.fsiCoupling (lines
2183-2211): active only when nbTimeToKeep is nonzero and timeIter is at least
1; skipped (flag set) when convergence was reached in one iteration with no
stored history; on non-convergence at the iteration cap both lists are reset
and maxNbOfItReached is set; otherwise the new blocks are inserted at the
front and, when timeIter exceeds nbTimeToKeep and the new V length exceeds
nbTimeToKeep, the oldest (last) entry of each list is deleted. -/
def iqnUpdateVW {a : Type} (nbTimeToKeep timeIter : ℕ) (step : IQNStepInput a)
    (s : IQNHistState a) : IQNHistState a :=
  if nbTimeToKeep ≠ 0 ∧ 1 ≤ timeIter then
    if ¬(step.FSIIter = 1 ∧ step.FSIConv = true ∧ s.V.length = 0) then
      if step.nbFSIIter ≤ step.FSIIter ∧ step.FSIConv = false then
        { V := [], W := [], maxNbOfItReached := true,
          convergenceReachedInOneIt := false }
      else
        let Vnew := step.vEntry :: s.V
        let Wnew := step.wEntry :: s.W
        if nbTimeToKeep < timeIter ∧ nbTimeToKeep < Vnew.length then
          { V := Vnew.dropLast, W := Wnew.dropLast, maxNbOfItReached := false,
            convergenceReachedInOneIt := false }
        else
          { V := Vnew, W := Wnew, maxNbOfItReached := false,
            convergenceReachedInOneIt := false }
    else
      { s with convergenceReachedInOneIt := true }
  else s

/-- Trajectory of the IQN-ILS history over successive time steps: the outer
time loop of Algorithm.run calls fsiCoupling once per time step, with
timeIter increasing by one after each call (timeIter starts at 0 in
Algorithm.init). -/
def iqnRun {a : Type} (nbTimeToKeep : ℕ) :
    ℕ → List (IQNStepInput a) → IQNHistState a → IQNHistState a
  | _, [], s => s
  | timeIter, step :: rest, s =>
    iqnRun nbTimeToKeep (timeIter + 1) rest (iqnUpdateVW nbTimeToKeep timeIter step s)

/-- Initial IQN-ILS history state built in AlgorithmIQN_ILS.init: empty V
and W, both flags cleared. -/
def iqnInitState (a : Type) : IQNHistState a :=
  { V := [], W := [], maxNbOfItReached := false, convergenceReachedInOneIt := false }

/-- Helper: one history update preserves equal list lengths together with the
bounds length at most nbTimeToKeep and length at most timeIter minus one. -/
theorem iqnUpdateVW_preserves {a : Type} (K timeIter : ℕ) (step : IQNStepInput a)
    (s : IQNHistState a)
    (hlen : s.V.length = s.W.length) (hK : s.V.length ≤ K)
    (ht : s.V.length ≤ timeIter - 1) :
    (iqnUpdateVW K timeIter step s).V.length = (iqnUpdateVW K timeIter step s).W.length ∧
      (iqnUpdateVW K timeIter step s).V.length ≤ K ∧
      (iqnUpdateVW K timeIter step s).V.length ≤ timeIter := by
  rw [iqnUpdateVW]
  split
  · rename_i hgate
    split
    · split
      · refine ⟨rfl, ?_, ?_⟩ <;> simp
      · simp only
        split
        · rename_i hprune
          refine ⟨?_, ?_, ?_⟩
          · simp [List.length_dropLast, hlen]
          · simp only [List.length_dropLast, List.length_cons]
            omega
          · simp only [List.length_dropLast, List.length_cons]
            omega
        · rename_i hnoprune
          refine ⟨by simp [hlen], ?_, ?_⟩
          · simp only [List.length_cons]
            rcases le_or_lt timeIter K with hcase | hcase
            · omega
            · simp only [List.length_cons, not_and, not_lt] at hnoprune
              have := hnoprune (by omega)
              omega
          · simp only [List.length_cons]
            omega
    · refine ⟨?_, ?_, ?_⟩ <;> simp only [] <;> omega
  · exact ⟨hlen, by omega, by omega⟩

/-- Helper: along any trajectory the IQN-ILS history keeps equal V and W
lengths, both at most nbTimeToKeep. -/
theorem iqnRun_invariant {a : Type} (K : ℕ) :
    ∀ (steps : List (IQNStepInput a)) (timeIter : ℕ) (s : IQNHistState a),
      s.V.length = s.W.length → s.V.length ≤ K → s.V.length ≤ timeIter - 1 →
      (iqnRun K timeIter steps s).V.length = (iqnRun K timeIter steps s).W.length ∧
        (iqnRun K timeIter steps s).V.length ≤ K := by
  intro steps
  induction steps with
  | nil =>
    intro timeIter s hlen hK _
    exact ⟨hlen, hK⟩
  | cons step rest ih =>
    intro timeIter s hlen hK ht
    have h := iqnUpdateVW_preserves K timeIter step s hlen hK ht
    exact ih (timeIter + 1) (iqnUpdateVW K timeIter step s) h.1 h.2.1 (by omega)

/-- C2: for IQN-ILS with nbTimeToKeep positive, after any sequence of
completed fsiCoupling calls starting from the initial empty history at
timeIter 0, the stored V and W lists have equal length and that length never
exceeds nbTimeToKeep. -/
theorem iqn_history_lengths_bounded {a : Type} (K : ℕ) (hK : 0 < K)
    (steps : List (IQNStepInput a)) :
    (iqnRun K 0 steps (iqnInitState a)).V.length =
        (iqnRun K 0 steps (iqnInitState a)).W.length ∧
      (iqnRun K 0 steps (iqnInitState a)).V.length ≤ K :=
  iqnRun_invariant K steps 0 (iqnInitState a) rfl (by simp [iqnInitState])
    (by simp [iqnInitState])

/-- Concrete four-step trajectory (time steps 0 to 3) for the C2 witness,
with every step inserting a block and nbTimeToKeep = 2. -/
def iqnSampleSteps : List (IQNStepInput ℕ) :=
  [⟨10, 4, true, 1, 1⟩, ⟨10, 4, true, 2, 2⟩, ⟨10, 4, true, 3, 3⟩, ⟨10, 4, true, 4, 4⟩]

/-- Witness for C2 at a concrete input: nbTimeToKeep = 2 and four time
steps, after which V and W hold at most 2 entries each. -/
theorem iqn_history_lengths_bounded_witness :
    (iqnRun 2 0 iqnSampleSteps (iqnInitState ℕ)).V.length =
        (iqnRun 2 0 iqnSampleSteps (iqnInitState ℕ)).W.length ∧
      (iqnRun 2 0 iqnSampleSteps (iqnInitState ℕ)).V.length ≤ 2 :=
  iqn_history_lengths_bounded 2 (by decide) iqnSampleSteps

/-- C3: in AlgorithmIQN_ILS.fsiCoupling with nbTimeToKeep nonzero, when a
time step (timeIter at least 1) ends with FSIIter at least the iteration cap
and the convergence flag false, the history update resets V and W to empty
lists and sets maxNbOfItReached; the update is a total function (the source
merely logs a warning and continues). -/
theorem iqn_failed_step_resets_history {a : Type} (K timeIter : ℕ)
    (step : IQNStepInput a) (s : IQNHistState a) (hK : K ≠ 0)
    (ht : 1 ≤ timeIter) (hiter : step.nbFSIIter ≤ step.FSIIter)
    (hconv : step.FSIConv = false) :
    iqnUpdateVW K timeIter step s =
      { V := [], W := [], maxNbOfItReached := true,
        convergenceReachedInOneIt := false } := by
  rw [iqnUpdateVW, if_pos ⟨hK, ht⟩, if_pos, if_pos ⟨hiter, hconv⟩]
  rw [hconv]
  simp

/-- Witness for C3 at a concrete input: nbTimeToKeep = 2, timeIter = 3, a
step ending at the cap without convergence, applied to a nonempty history. -/
theorem iqn_failed_step_resets_history_witness :
    iqnUpdateVW 2 3 (⟨5, 5, false, 9, 9⟩ : IQNStepInput ℕ)
        { V := [7], W := [8], maxNbOfItReached := false,
          convergenceReachedInOneIt := false } =
      { V := [], W := [], maxNbOfItReached := true,
        convergenceReachedInOneIt := false } :=
  iqn_failed_step_resets_history 2 3 ⟨5, 5, false, 9, 9⟩
    { V := [7], W := [8], maxNbOfItReached := false,
      convergenceReachedInOneIt := false } (by decide) (by decide) (by decide) rfl

/-- Operations performed by an interpolation transfer, in source order:
solve names a LinearSolver.solve call on the named system, mult names an
InterfaceMatrix.mult call with the named matrix. -/
inductive TransferOp where
  | solveA : TransferOp
  | solveA_T : TransferOp
  | solveC : TransferOp
  | multB : TransferOp
  | multB_T : TransferOp
  | multD : TransferOp
  deriving DecidableEq

/-- ConservativeInterpolator after construction (lines 702-881): the
augmented square systems A and A_T of size ns+d, the rectangular projection
matrices B and B_T, and the two LinearSolver objects wrapping A and A_T.
Modelled from the spec: LinearSolver and InterfaceMatrix live in the ccupydo
layer (not in src/); per spec 4.3 a solver returns the solution of
A·x = b, so it is carried as a function whose defining property is supplied
as a hypothesis, and per spec 4.2 mult is the matrix-vector product.  The
dimension columns of a field are solved independently (spec 4.3), so fields
are modelled one column at a time. -/
structure ConservativeItp (ns nf d : ℕ) where
  A : Matrix (Fin (ns + d)) (Fin (ns + d)) ℚ
  A_T : Matrix (Fin (ns + d)) (Fin (ns + d)) ℚ
  B : Matrix (Fin nf) (Fin (ns + d)) ℚ
  B_T : Matrix (Fin (ns + d)) (Fin nf) ℚ
  SolverA : (Fin (ns + d) → ℚ) → Fin (ns + d) → ℚ
  SolverA_T : (Fin (ns + d) → ℚ) → Fin (ns + d) → ℚ

/-- ConservativeInterpolator.interpolateSolidToFluid (lines 871-881): gamma
of size ns+d is obtained by one SolverA.solve on the solid data, then B is
applied into the fluid field; the returned list records the operations in
source order. -/
def ConservativeItp.interpolateSolidToFluid {ns nf d : ℕ}
    (itp : ConservativeItp ns nf d) (solidInterfaceData : Fin (ns + d) → ℚ) :
    (Fin nf → ℚ) × List TransferOp :=
  let gamma_array := itp.SolverA solidInterfaceData
  (itp.B.mulVec gamma_array, [TransferOp.solveA, TransferOp.multB])

/-- ConservativeInterpolator.interpolateFluidToSolid (lines 860-869): gamma
of size ns+d is obtained by applying B_T to the fluid data, then one
SolverA_T.solve produces the solid field; the returned list records the
operations in source order. -/
def ConservativeItp.interpolateFluidToSolid {ns nf d : ℕ}
    (itp : ConservativeItp ns nf d) (fluidInterfaceData : Fin nf → ℚ) :
    (Fin (ns + d) → ℚ) × List TransferOp :=
  let gamma_array := itp.B_T.mulVec fluidInterfaceData
  (itp.SolverA_T gamma_array, [TransferOp.multB_T, TransferOp.solveA_T])

/-- ConsistentInterpolator after construction (lines 883-1086): decoupled
square systems A (size ns+d) and C (size nf+d), projection matrices B and D,
and the two LinearSolver objects wrapping A and C.  Solver and matrix
semantics modelled from the spec as for ConservativeItp. -/
structure ConsistentItp (ns nf d : ℕ) where
  A : Matrix (Fin (ns + d)) (Fin (ns + d)) ℚ
  B : Matrix (Fin nf) (Fin (ns + d)) ℚ
  C : Matrix (Fin (nf + d)) (Fin (nf + d)) ℚ
  D : Matrix (Fin ns) (Fin (nf + d)) ℚ
  SolverA : (Fin (ns + d) → ℚ) → Fin (ns + d) → ℚ
  SolverC : (Fin (nf + d) → ℚ) → Fin (nf + d) → ℚ

/-- ConsistentInterpolator.interpolateFluidToSolid (lines 1066-1075): gamma
of size nf+d is obtained by one SolverC.solve on the fluid data, then D is
applied into the solid field. -/
def ConsistentItp.interpolateFluidToSolid {ns nf d : ℕ}
    (itp : ConsistentItp ns nf d) (fluidInterfaceData : Fin (nf + d) → ℚ) :
    (Fin ns → ℚ) × List TransferOp :=
  let gamma_array := itp.SolverC fluidInterfaceData
  (itp.D.mulVec gamma_array, [TransferOp.solveC, TransferOp.multD])

/-- ConsistentInterpolator.interpolateSolidToFluid (lines 1077-1086): gamma
of size ns+d is obtained by one SolverA.solve on the solid data, then B is
applied into the fluid field. -/
def ConsistentItp.interpolateSolidToFluid {ns nf d : ℕ}
    (itp : ConsistentItp ns nf d) (solidInterfaceData : Fin (ns + d) → ℚ) :
    (Fin nf → ℚ) × List TransferOp :=
  let gamma_array := itp.SolverA solidInterfaceData
  (itp.B.mulVec gamma_array, [TransferOp.solveA, TransferOp.multB])

/-- C4: for the conservative interpolator, every interpolateSolidToFluid
performs exactly one solve with the augmented system A (producing gamma of
size ns+d, enforced by the type) followed by one multiplication by B, and
every interpolateFluidToSolid performs one multiplication by B_T followed by
exactly one solve with A_T; for the consistent interpolator each direction
goes through its own decoupled square system (solve with C then multiply by D
for fluid to solid, solve with A then multiply by B for solid to fluid).
Given the spec contract of the four solvers, the produced fields satisfy the
corresponding linear systems. -/
theorem interpolator_transfer_structure {ns nf d : ℕ}
    (co : ConservativeItp ns nf d) (cs : ConsistentItp ns nf d)
    (hA : ∀ b, co.A.mulVec (co.SolverA b) = b)
    (hAT : ∀ b, co.A_T.mulVec (co.SolverA_T b) = b)
    (hcA : ∀ b, cs.A.mulVec (cs.SolverA b) = b)
    (hcC : ∀ b, cs.C.mulVec (cs.SolverC b) = b) :
    (∀ s, (co.interpolateSolidToFluid s).2 = [TransferOp.solveA, TransferOp.multB] ∧
      ∃ gamma, co.A.mulVec gamma = s ∧
        (co.interpolateSolidToFluid s).1 = co.B.mulVec gamma) ∧
    (∀ f, (co.interpolateFluidToSolid f).2 = [TransferOp.multB_T, TransferOp.solveA_T] ∧
      co.A_T.mulVec (co.interpolateFluidToSolid f).1 = co.B_T.mulVec f) ∧
    (∀ f, (cs.interpolateFluidToSolid f).2 = [TransferOp.solveC, TransferOp.multD] ∧
      ∃ gamma, cs.C.mulVec gamma = f ∧
        (cs.interpolateFluidToSolid f).1 = cs.D.mulVec gamma) ∧
    (∀ s, (cs.interpolateSolidToFluid s).2 = [TransferOp.solveA, TransferOp.multB] ∧
      ∃ gamma, cs.A.mulVec gamma = s ∧
        (cs.interpolateSolidToFluid s).1 = cs.B.mulVec gamma) := by
  refine ⟨fun s => ⟨rfl, co.SolverA s, hA s, rfl⟩,
    fun f => ⟨rfl, hAT (co.B_T.mulVec f)⟩,
    fun f => ⟨rfl, cs.SolverC f, hcC f, rfl⟩,
    fun s => ⟨rfl, cs.SolverA s, hcA s, rfl⟩⟩

/-- Concrete conservative interpolator for the C4 witness: identity square
systems with the identity as solver, zero projection matrices. -/
def coSample : ConservativeItp 1 1 1 := ⟨1, 1, 0, 0, id, id⟩

/-- Concrete consistent interpolator for the C4 witness. -/
def csSample : ConsistentItp 1 1 1 := ⟨1, 0, 1, 0, id, id⟩

/-- Witness for C4 at a concrete input: the identity-system interpolators
applied to the constant-one solid field. -/
theorem interpolator_transfer_structure_witness :
    (coSample.interpolateSolidToFluid fun _ => 1).2 =
        [TransferOp.solveA, TransferOp.multB] ∧
      ∃ gamma, coSample.A.mulVec gamma = (fun _ => 1) ∧
        (coSample.interpolateSolidToFluid fun _ => 1).1 = coSample.B.mulVec gamma :=
  (interpolator_transfer_structure coSample csSample
    (fun b => Matrix.one_mulVec b) (fun b => Matrix.one_mulVec b)
    (fun b => Matrix.one_mulVec b) (fun b => Matrix.one_mulVec b)).1 (fun _ => 1)

/-- Node-count guard of MatchingMeshesInterpolator.init (lines 551-552): a
Python raise is represented by the error branch of Except, carrying the
message from the source. -/
def matchingMeshesNodeCountCheck (nf ns : ℕ) : Except String Unit :=
  if nf ≠ ns then
    Except.error "Fluid and solid interface must have the same number of nodes for matching meshes ! "
  else
    Except.ok ()

/-- C6: constructing a MatchingMeshesInterpolator raises a configuration
error exactly when the total fluid interface node count differs from the
total solid interface node count; with respect to this check, construction
succeeds only when nf equals ns. -/
theorem matching_meshes_node_count_guard (nf ns : ℕ) :
    ((∃ msg, matchingMeshesNodeCountCheck nf ns = Except.error msg) ↔ nf ≠ ns) ∧
      (matchingMeshesNodeCountCheck nf ns = Except.ok () ↔ nf = ns) := by
  constructor
  · constructor
    · intro ⟨msg, hmsg⟩
      intro heq
      rw [matchingMeshesNodeCountCheck, if_neg (by simpa using heq)] at hmsg
      exact Except.noConfusion hmsg
    · intro hne
      exact ⟨_, by rw [matchingMeshesNodeCountCheck, if_pos hne]⟩
  · constructor
    · intro h
      by_contra hne
      rw [matchingMeshesNodeCountCheck, if_pos hne] at h
      exact Except.noConfusion h
    · intro heq
      rw [matchingMeshesNodeCountCheck, if_neg (by simpa using heq)]

/-- CHT transfer method resolution in InterfaceInterpolator.init (lines
80-90): when CHT is active, a method outside the four supported names (also
the unspecified case, represented by none) is replaced by the default TFFB
after a printed notice; no exception is raised on this path, so the Except
error branch recording a possible raise is never produced.  When CHT is
inactive the method is set to none. -/
def initChtTransferMethod (withCht : Bool) (chtTransferMethod : Option String) :
    Except String (Option String) :=
  if withCht then
    match chtTransferMethod with
    | some m =>
      if m = "TFFB" ∨ m = "FFTB" ∨ m = "hFTB" ∨ m = "hFFB" then Except.ok (some m)
      else Except.ok (some "TFFB")
    | none => Except.ok (some "TFFB")
  else
    Except.ok none

/-- Counterexample to C7 at a concrete input: with CHT enabled and the
unsupported method name XXXX, construction does not raise; it proceeds with
the default method TFFB. -/
theorem initChtTransferMethod_no_raise_counterexample :
    initChtTransferMethod true (some "XXXX") = Except.ok (some "TFFB") := rfl

/-- C7 amended: when CHT is enabled, a chtTransferMethod outside TFFB, FFTB,
hFTB, hFFB does not raise; the constructor logs a notice and proceeds with
the default method TFFB (a supported method is kept unchanged). -/
theorem initChtTransferMethod_defaults (m : String)
    (hm : ¬(m = "TFFB" ∨ m = "FFTB" ∨ m = "hFTB" ∨ m = "hFFB")) :
    initChtTransferMethod true (some m) = Except.ok (some "TFFB") := by
  rw [initChtTransferMethod, if_pos rfl]
  simp only [if_neg hm]

/-- Witness for the amended C7 at a concrete input: the unsupported method
name ABCD resolves to the default TFFB without an error. -/
theorem initChtTransferMethod_defaults_witness :
    initChtTransferMethod true (some "ABCD") = Except.ok (some "TFFB") :=
  initChtTransferMethod_defaults "ABCD" (by decide)

/-- Observable effects of Algorithm.run (lines 1646-1698) around the time
loop: whether the divine-error diagnostic was printed, whether the exit
summary was printed, and whether the exit method of each solver was called. -/
structure RunEffects where
  diagnosticPrinted : Bool
  exitInfoPrinted : Bool
  solidExitCalled : Bool
  fluidExitCalled : Bool
  deriving DecidableEq

/-- Algorithm.run (lines 1646-1698): the time loop runs inside try; a bare
except prints the diagnostic and the traceback without re-raising; the
finally block prints the exit summary, calls SolidSolver.exit on the solid
owning processes and FluidSolver.exit unconditionally.  loopOutcome is none
when the loop completed and some e when it raised exception e; the second
component of the result is the exception propagated to the caller of run. -/
def runModel (isSolidProc : Bool) (loopOutcome : Option String) :
    RunEffects × Option String :=
  match loopOutcome with
  | some _ =>
    ({ diagnosticPrinted := true, exitInfoPrinted := true,
       solidExitCalled := isSolidProc, fluidExitCalled := true }, none)
  | none =>
    ({ diagnosticPrinted := false, exitInfoPrinted := true,
       solidExitCalled := isSolidProc, fluidExitCalled := true }, none)

/-- Counterexample to C8 at a concrete input: on a solid-owning process with
the time loop raising the exception boom, the diagnostic is printed and both
solver exits run, but nothing is propagated to the caller of run - the bare
except swallows the exception and run returns normally. -/
theorem run_no_propagation_counterexample :
    runModel true (some "boom") =
      ({ diagnosticPrinted := true, exitInfoPrinted := true,
         solidExitCalled := true, fluidExitCalled := true }, none) := rfl

/-- C8 amended: if any exception is raised inside the time loop of Algorithm.run,
a diagnostic is printed and solver teardown (SolidSolver.exit on its owning
processes, FluidSolver.exit) still executes unconditionally, but the failure
is not propagated to the caller: the bare except suppresses the exception and
run returns normally (the failure is visible only in the printed exit
summary). -/
theorem run_teardown_without_propagation (isSolidProc : Bool)
    (loopOutcome : Option String) :
    ((runModel isSolidProc loopOutcome).1.solidExitCalled = isSolidProc ∧
      (runModel isSolidProc loopOutcome).1.fluidExitCalled = true ∧
      (runModel isSolidProc loopOutcome).1.exitInfoPrinted = true) ∧
    (∀ e, loopOutcome = some e →
      (runModel isSolidProc loopOutcome).1.diagnosticPrinted = true) ∧
    (runModel isSolidProc loopOutcome).2 = none := by
  cases loopOutcome with
  | none => exact ⟨⟨rfl, rfl, rfl⟩, fun e he => Option.noConfusion he, rfl⟩
  | some e => exact ⟨⟨rfl, rfl, rfl⟩, fun _ _ => rfl, rfl⟩

/-- Witness for the amended C8 at a concrete input: a raised exception boom
on a solid-owning process leads to teardown, a diagnostic, and no
propagation. -/
theorem run_teardown_without_propagation_witness :
    (runModel true (some "boom")).1.diagnosticPrinted = true ∧
      (runModel true (some "boom")).2 = none :=
  ⟨(run_teardown_without_propagation true (some "boom")).2.1 "boom" rfl,
    (run_teardown_without_propagation true (some "boom")).2.2⟩

/-- Dynamically-typed Python value as it appears in the Robin heat-flux
computation: a float scalar, a NumPy nodal array, or a 2-tuple formed by a
parenthesized comma expression. -/
inductive PyVal (n : ℕ) where
  | num : ℚ → PyVal n
  | arr : (Fin n → ℚ) → PyVal n
  | pair : PyVal n → PyVal n → PyVal n

/-- Python semantics of multiplying a float scalar by a value: scalar times
scalar, broadcast over an array, and a TypeError (none) for a float times a
tuple, since a sequence cannot be multiplied by a non-integer. -/
def pyScalarMul {n : ℕ} (c : ℚ) : PyVal n → Option (PyVal n)
  | PyVal.num q => some (PyVal.num (c * q))
  | PyVal.arr a => some (PyVal.arr fun i => c * a i)
  | PyVal.pair _ _ => none

/-- InterfaceInterpolator.setRobinHeatFluxToSolidSolver, MPI branch (lines
442-447): the applied nodal flux is heatTransferCoeff times the difference of
the nodal temperature held by the solid solver and the redistributed Robin
temperature. -/
def setRobinHeatFluxMPI {n : ℕ} (heatTransferCoeff : ℚ)
    (localSolidInterfaceTemperature localSolidInterfaceRobinTemperature :
      Fin n → ℚ) : Option (PyVal n) :=
  pyScalarMul heatTransferCoeff
    (PyVal.arr fun i =>
      localSolidInterfaceTemperature i - localSolidInterfaceRobinTemperature i)

/-- InterfaceInterpolator.setRobinHeatFluxToSolidSolver, non-MPI branch
(lines 448-451): the source multiplies heatTransferCoeff by the parenthesized
expression (T_solid − robinTemperature.getDataArray(0), time) - the trailing
comma makes the operand a 2-tuple of the difference array and the timestamp,
not the difference array itself. -/
def setRobinHeatFluxSerial {n : ℕ} (heatTransferCoeff : ℚ)
    (localSolidInterfaceTemperature solidInterfaceRobinTemperatureArray :
      Fin n → ℚ) (time : ℚ) : Option (PyVal n) :=
  pyScalarMul heatTransferCoeff
    (PyVal.pair
      (PyVal.arr fun i =>
        localSolidInterfaceTemperature i - solidInterfaceRobinTemperatureArray i)
      (PyVal.num time))

/-- C9, evaluated at the failing input: in the non-MPI branch with
heatTransferCoeff 1, solid temperature 2, Robin temperature 1 and time 1/2,
the float-times-tuple product is a TypeError (none), while the MPI branch at
the same data produces the nodal Robin flux coeff times (T_solid − T_robin)
the claim describes. -/
theorem robin_serial_stray_time_argument :
    setRobinHeatFluxSerial (n := 1) 1 (fun _ => 2) (fun _ => 1) (1/2) = none ∧
      setRobinHeatFluxMPI (n := 1) 1 (fun _ => 2) (fun _ => 1) =
        some (PyVal.arr fun _ => (1 : ℚ) * (2 - 1)) :=
  ⟨rfl, rfl⟩

end CUPyDO
